import Mathlib

/-!
Verification of the layout reflection and matching engine of the glium fork:
the uniform block layout matcher and layout builder generated by
implement_uniform_block, the content adapter size computations generated by
implement_buffer_content, and the vertex attribute descriptor builder
generated by implement_vertex (all in src/macros.rs).
-/

/-- GPU scalar, vector and matrix type tags used in block layouts
(a closed subset of the UniformType enumeration sufficient for the
host types considered here). -/
inductive UniformType
  | Float
  | FloatVec2
  | FloatVec3
  | FloatVec4
  | FloatMat3
  | FloatMat4
  deriving DecidableEq, Repr

mutual

/-- A reflected block layout tree: a Struct node holds an ordered list of
named members, a BasicType node holds a type tag and the byte offset
inside the buffer. -/
inductive BlockLayout
  | Struct (members : BlockMembers)
  | BasicType (ty : UniformType) (offset_in_buffer : Nat)
  deriving DecidableEq, Repr

/-- The ordered member list of a Struct block layout node, each entry a
name paired with a nested layout. -/
inductive BlockMembers
  | nil
  | cons (name : String) (layout : BlockLayout) (rest : BlockMembers)
  deriving DecidableEq, Repr

end

/-- The layout mismatch error taxonomy of the matcher. -/
inductive LayoutMismatchError
  | MissingField (name : String)
  | MemberMismatch (member : String) (err : LayoutMismatchError)
  | LayoutMismatch (expected : BlockLayout) (obtained : BlockLayout)
  deriving DecidableEq, Repr

mutual

/-- A host-side type participating in uniform block matching: either a leaf
whose UniformBlock implementation compares a single type tag, or an
aggregate struct registered through implement_uniform_block. -/
inductive HostTy
  | leaf (tag : UniformType)
  | agg (fields : HostFields)
  deriving DecidableEq, Repr

/-- The ordered field list of a host aggregate: each field has a name, a
byte offset inside the aggregate, and a field type. -/
inductive HostFields
  | nil
  | cons (name : String) (offset : Nat) (ty : HostTy) (rest : HostFields)
  deriving DecidableEq, Repr

end

/-- Names of the members of a reflected Struct node, in member order. -/
def BlockMembers.names : BlockMembers → List String
  | .nil => []
  | .cons n _ rest => n :: rest.names

/-- First member with the given name, mirroring
members.iter().find(|(name, _)| name == field). -/
def BlockMembers.find : BlockMembers → String → Option BlockLayout
  | .nil, _ => none
  | .cons n l rest, target => if n = target then some l else rest.find target

/-- Names of the declared fields of a host aggregate, in declaration
order. -/
def HostFields.names : HostFields → List String
  | .nil => []
  | .cons n _ _ rest => n :: rest.names

mutual

/-- build_layout generated by implement_uniform_block: a Struct node whose
members pair each field name with the layout of the field type built at
offset + base_offset (src/macros.rs lines 475-498).  For a leaf field
type the nested layout is Modelled from the spec: the leaf UniformBlock
implementations are outside the provided sources; per the spec a leaf
layout node is its type tag, synthesized at the given offset. -/
def buildLayoutTy : HostTy → Nat → BlockLayout
  | .leaf tag, base_offset => .BasicType tag base_offset
  | .agg fields, base_offset => .Struct (buildFields fields base_offset)

/-- The member list built by build_layout: one entry per declared field,
in declaration order, each built at offset + base_offset. -/
def buildFields : HostFields → Nat → BlockMembers
  | .nil, _ => .nil
  | .cons n offset ty rest, base_offset =>
      .cons n (buildLayoutTy ty (offset + base_offset)) (buildFields rest base_offset)

end

/-- Modelled from the spec: the UniformBlock matches implementation of a
leaf (scalar / vector / matrix) type, which is outside the provided
sources.  Per the spec it compares the type tag of the reflected node
directly; on a shape or tag difference it reports a LayoutMismatch
between the reflected layout and the layout the leaf itself builds,
oriented as in the in-source struct matcher (expected is the reflected
layout, obtained is the layout built by the host side). -/
def matchesLeaf (tag : UniformType) (layout : BlockLayout) (base_offset : Nat) :
    Except LayoutMismatchError Unit :=
  match layout with
  | .BasicType ty _ =>
      if ty = tag then .ok ()
      else .error (.LayoutMismatch layout (.BasicType tag base_offset))
  | _ => .error (.LayoutMismatch layout (.BasicType tag base_offset))

/-- First reflected member whose name equals no declared field name,
mirroring the first loop of matches (src/macros.rs lines 426-432):
for each member in order, if name differs from every field name the
loop returns MissingField with that member name. -/
def findExtra (fieldNames : List String) : BlockMembers → Option String
  | .nil => none
  | .cons n _ rest =>
      if fieldNames.all (fun f => f != n) then some n else findExtra fieldNames rest

mutual

/-- matches generated by implement_uniform_block (src/macros.rs lines
417-473): on a Struct node, first reject any reflected member name that
is not a declared field name, then walk the declared fields in order;
on any other node report LayoutMismatch with expected the reflected
layout and obtained the layout this type builds at base_offset.  Leaf
types dispatch to the spec-modelled leaf matcher. -/
def matchesTy : HostTy → BlockLayout → Nat → Except LayoutMismatchError Unit
  | .leaf tag, layout, base_offset => matchesLeaf tag layout base_offset
  | .agg fields, layout, base_offset =>
      match layout with
      | .Struct members =>
          match findExtra fields.names members with
          | some n => .error (.MissingField n)
          | none => matchFields fields members
      | _ => .error (.LayoutMismatch layout (buildLayoutTy (.agg fields) base_offset))

/-- The per-field loop of matches (src/macros.rs lines 442-463): for each
declared field in order, find the reflected member of the same name
(MissingField with the field name if absent), then match the field type
against that member at input_offset, the offset of the field inside the
aggregate (the enclosing base_offset is not added by the source); a
nested error is wrapped as MemberMismatch and returned at once. -/
def matchFields : HostFields → BlockMembers → Except LayoutMismatchError Unit
  | .nil, _ => .ok ()
  | .cons n input_offset ty rest, members =>
      match members.find n with
      | none => .error (.MissingField n)
      | some reflected =>
          match matchesTy ty reflected input_offset with
          | .ok _ => matchFields rest members
          | .error e => .error (.MemberMismatch n e)

end

/-- Whether a block layout node is a Struct node. -/
def BlockLayout.isStructNode : BlockLayout → Bool
  | .Struct _ => true
  | _ => false

/-- Membership of a (name, offset, type) field entry in a host field
list. -/
def HostFields.MemEntry (n : String) (off : Nat) (ty : HostTy) : HostFields → Prop
  | .nil => False
  | .cons n2 off2 ty2 rest => (n = n2 ∧ off = off2 ∧ ty = ty2) ∨ MemEntry n off ty rest

/-- Concatenation of host field lists. -/
def HostFields.append : HostFields → HostFields → HostFields
  | .nil, gs => gs
  | .cons n off ty rest, gs => .cons n off ty (rest.append gs)

/-- Pairwise distinctness of a name list, head checked against the tail. -/
def nodupNames : List String → Bool
  | [] => true
  | n :: rest => rest.all (fun m => m != n) && nodupNames rest

mutual

/-- Well-formedness of a host type: every aggregate, at every nesting
level, declares pairwise distinct field names, which the host language
guarantees for any registered struct. -/
def wfTy : HostTy → Bool
  | .leaf _ => true
  | .agg fields => nodupNames fields.names && wfFields fields

/-- Well-formedness of every field type in a host field list. -/
def wfFields : HostFields → Bool
  | .nil => true
  | .cons _ _ ty rest => wfTy ty && wfFields rest

end

instance : DecidableEq (Except LayoutMismatchError Unit) := fun a b =>
  match a, b with
  | .ok x, .ok y => isTrue (by cases x; cases y; rfl)
  | .error e1, .error e2 =>
      if h : e1 = e2 then isTrue (by rw [h])
      else isFalse (fun hh => h (Except.error.inj hh))
  | .ok _, .error _ => isFalse (fun h => Except.noConfusion h)
  | .error _, .ok _ => isFalse (fun h => Except.noConfusion h)

/-- The per-type size descriptor of the content adapter generated by
implement_buffer_content: min_size is the byte size of the
zero-trailing-element form and step the byte size of one trailing
element, the names the source gives these two quantities. -/
structure ContentAdapter where
  min_size : Nat
  step : Nat
  deriving DecidableEq, Repr

/-- is_size_suitable (src/macros.rs lines 362-373):
size > min_size && (size - min_size) % step == 0. -/
def is_size_suitable (a : ContentAdapter) (size : Nat) : Bool :=
  decide (size > a.min_size) && decide ((size - a.min_size) % a.step = 0)

/-- The size checks and trailing element count computed by ref_from_ptr
(src/macros.rs lines 340-360): None when size < min_size, None when the
variadic part size - min_size is not a multiple of step, otherwise the
count variadic / step. -/
def ref_from_ptr_count (a : ContentAdapter) (size : Nat) : Option Nat :=
  if size < a.min_size then none
  else
    let variadic := size - a.min_size
    if variadic % a.step ≠ 0 then none
    else some (variadic / a.step)

/-- Vertex attribute type tags for float scalars and vectors (the subset
of AttributeType needed here). -/
inductive AttributeType
  | F32
  | F32F32
  | F32F32F32
  | F32F32F32F32
  deriving DecidableEq, Repr

/-- Compile-time element types of vertex struct fields. -/
inductive ElemTy
  | f32
  | f32x2
  | f32x3
  | f32x4
  deriving DecidableEq, Repr

/-- Modelled from the spec: the closed mapping from a field element
compile-time type to its GPU attribute type tag, given by the Attribute
trait implementations which are outside the provided sources (a 2-float
array maps to a 2-component float vector tag, and so on). -/
def attr_type_of : ElemTy → AttributeType
  | .f32 => .F32
  | .f32x2 => .F32F32
  | .f32x3 => .F32F32F32
  | .f32x4 => .F32F32F32F32

/-- The bindings list generated by the default form of implement_vertex
(src/macros.rs lines 169-201): for each declared field, in declaration
order, the tuple (field name, field offset, location -1, attribute type
tag of the field element type, normalize false). -/
def build_bindings (fields : List (String × Nat × ElemTy)) :
    List (String × Nat × Int × AttributeType × Bool) :=
  fields.map (fun f => (f.1, f.2.1, -1, attr_type_of f.2.2, false))

/-- C1: at the nested host type {x at offset 4 of type {y at offset 0:
float}} matched against a reflected Struct whose member x is a basic
leaf, with outer base_offset 8, the nested matches call receives only
the field offset 4: the diagnostic layout inside the nested
LayoutMismatch is built at 4, and the layout built at 4 + 8, which the
claim requires, differs from it. -/
theorem matches_recursion_drops_outer_base_offset :
    matchesTy (.agg (.cons "x" 4 (.agg (.cons "y" 0 (.leaf .Float) .nil)) .nil))
        (.Struct (.cons "x" (.BasicType .Float 0) .nil)) 8
      = .error (.MemberMismatch "x"
          (.LayoutMismatch (.BasicType .Float 0)
            (.Struct (.cons "y" (.BasicType .Float 4) .nil)))) ∧
      buildLayoutTy (.agg (.cons "y" 0 (.leaf .Float) .nil)) (4 + 8)
        ≠ .Struct (.cons "y" (.BasicType .Float 4) .nil) :=
  ⟨rfl, by decide⟩

/-- C2 counterexample: at host struct {a: float} against a reflected basic
leaf at base offset 0, matches does not return the claimed error whose
expected field is the layout built from the host type; it returns the
error with expected the reflected leaf and obtained the built layout. -/
theorem matches_non_struct_error_orientation_cex :
    matchesTy (.agg (.cons "a" 0 (.leaf .Float) .nil)) (.BasicType .Float 0) 0
        ≠ .error (.LayoutMismatch
            (buildLayoutTy (.agg (.cons "a" 0 (.leaf .Float) .nil)) 0)
            (.BasicType .Float 0)) ∧
      matchesTy (.agg (.cons "a" 0 (.leaf .Float) .nil)) (.BasicType .Float 0) 0
        = .error (.LayoutMismatch (.BasicType .Float 0)
            (.Struct (.cons "a" (.BasicType .Float 0) .nil))) := by
  refine ⟨fun h => ?_, rfl⟩
  have h2 := Except.error.inj h
  injection h2 with h3 h4
  exact BlockLayout.noConfusion h3

/-- C2 amended: for every host aggregate, every base offset and every
reflected layout that is not a Struct node, matches fails with
LayoutMismatch whose expected field is the reflected layout that was
supplied and whose obtained field is the layout the host type builds at
base_offset. -/
theorem matches_non_struct_layout_mismatch (fields : HostFields)
    (layout : BlockLayout) (base_offset : Nat)
    (h : layout.isStructNode = false) :
    matchesTy (.agg fields) layout base_offset
      = .error (.LayoutMismatch layout (buildLayoutTy (.agg fields) base_offset)) := by
  cases layout with
  | Struct members => simp [BlockLayout.isStructNode] at h
  | BasicType ty off => rfl

/-- Witness for C2 amended at a concrete host type, leaf layout and base
offset 3. -/
theorem matches_non_struct_layout_mismatch_witness :
    BlockLayout.isStructNode (.BasicType .Float 16) = false ∧
      matchesTy (.agg (.cons "a" 0 (.leaf .Float) .nil)) (.BasicType .Float 16) 3
        = .error (.LayoutMismatch (.BasicType .Float 16)
            (.Struct (.cons "a" (.BasicType .Float 3) .nil))) :=
  ⟨rfl, matches_non_struct_layout_mismatch _ _ 3 rfl⟩

/-- C6: for every content adapter and every candidate byte size,
is_size_suitable accepts exactly the sizes strictly greater than the
fixed size whose excess over the fixed size is a multiple of the
stride. -/
theorem is_size_suitable_spec (a : ContentAdapter) (_h : 0 < a.step) (size : Nat) :
    is_size_suitable a size = true ↔
      a.min_size < size ∧ (size - a.min_size) % a.step = 0 := by
  simp [is_size_suitable]

/-- Witness for C6 at the adapter with fixed size 4 and stride 4 and
size 12. -/
theorem is_size_suitable_spec_witness :
    0 < (ContentAdapter.mk 4 4).step ∧
      (is_size_suitable ⟨4, 4⟩ 12 = true ↔
        (ContentAdapter.mk 4 4).min_size < 12 ∧ (12 - (ContentAdapter.mk 4 4).min_size) % (ContentAdapter.mk 4 4).step = 0) :=
  ⟨by decide, is_size_suitable_spec ⟨4, 4⟩ (by decide) 12⟩

/-- C7 counterexample: at the adapter with fixed size 4 and stride 4 and
size exactly 4, ref_from_ptr computes the count Some 0 although
is_size_suitable rejects the size, so the two do not define the same
set of sizes. -/
theorem element_count_suitable_cex :
    ref_from_ptr_count ⟨4, 4⟩ 4 = some 0 ∧ is_size_suitable ⟨4, 4⟩ 4 = false :=
  ⟨rfl, rfl⟩

/-- C7 amended: the count computed by ref_from_ptr is
(size - min_size) / step exactly on the sizes that is_size_suitable
accepts together with the size equal to min_size, and None on every
other size. -/
theorem element_count_spec_amended (a : ContentAdapter) (size : Nat) :
    ref_from_ptr_count a size =
      if is_size_suitable a size || size == a.min_size
      then some ((size - a.min_size) / a.step) else none := by
  simp only [ref_from_ptr_count, is_size_suitable]
  by_cases h1 : size < a.min_size
  · have h2 : ¬ a.min_size < size := by omega
    have h3 : ¬ size = a.min_size := by omega
    simp [h1, h2, h3]
  · by_cases h2 : size = a.min_size
    · subst h2
      simp [h1, Nat.sub_self]
    · have h3 : a.min_size < size := by omega
      by_cases h4 : (size - a.min_size) % a.step = 0
      · simp [h1, h3, h4]
      · simp [h1, h2, h3, h4]

/-- C8 counterexample: with fixed size 4 and stride 4, is_size_suitable
rejects the size 4 equal to the fixed size, contrary to the claim that
it is admissible. -/
theorem fixed_size_not_suitable_cex : is_size_suitable ⟨4, 4⟩ 4 = false := rfl

/-- C8 amended: for every content adapter, the byte size exactly equal to
the fixed size yields a trailing element count of zero through
ref_from_ptr, while is_size_suitable rejects it because its
greater-than test is strict. -/
theorem fixed_size_element_count_zero (a : ContentAdapter) :
    ref_from_ptr_count a a.min_size = some 0 ∧
      is_size_suitable a a.min_size = false := by
  constructor
  · simp [ref_from_ptr_count, Nat.sub_self]
  · simp [is_size_suitable]

/-- C10: the default-form descriptor builder maps each declared field, in
declaration order, to (name, offset, location -1, element type tag,
normalize false); in particular the documented two-field scenario holds
and building the same field list twice yields identical sequences. -/
theorem vertex_bindings_scenario_deterministic :
    build_bindings [("position", 0, .f32x2), ("color", 8, .f32x3)]
        = [("position", 0, -1, .F32F32, false), ("color", 8, -1, .F32F32F32, false)] ∧
      ∀ fields : List (String × Nat × ElemTy),
        build_bindings fields = build_bindings fields :=
  ⟨rfl, fun _ => rfl⟩

theorem findExtra_eq_none_iff : ∀ (l : List String) (ms : BlockMembers),
    findExtra l ms = none ↔ ∀ n, n ∈ ms.names → n ∈ l
  | l, .nil => by simp [findExtra, BlockMembers.names]
  | l, .cons n lay rest => by
      simp only [findExtra, BlockMembers.names]
      by_cases h : l.all (fun f => f != n) = true
      · rw [if_pos h]
        have hn : n ∉ l := by
          intro hmem
          have h2 := List.all_eq_true.mp h n hmem
          simp at h2
        refine iff_of_false (by simp) ?_
        intro hall
        exact hn (hall n (List.mem_cons_self _ _))
      · rw [if_neg h]
        have hmem : n ∈ l := by
          by_contra hnot
          apply h
          exact List.all_eq_true.mpr
            (fun f hf => bne_iff_ne.mpr (fun he => hnot (he ▸ hf)))
        rw [findExtra_eq_none_iff l rest]
        constructor
        · intro hall m hm
          rcases List.mem_cons.mp hm with h1 | h1
          · exact h1 ▸ hmem
          · exact hall m h1
        · intro hall m hm
          exact hall m (List.mem_cons.mpr (Or.inr hm))

theorem findExtra_some_spec : ∀ (l : List String) (ms : BlockMembers) (n : String),
    findExtra l ms = some n → n ∈ ms.names ∧ n ∉ l
  | l, .nil, n => by simp [findExtra]
  | l, .cons m lay rest, n => by
      simp only [findExtra, BlockMembers.names]
      by_cases h : l.all (fun f => f != m) = true
      · rw [if_pos h]
        intro hsome
        have hmn : m = n := by simpa using hsome
        subst hmn
        refine ⟨List.mem_cons_self _ _, fun hmem => ?_⟩
        have h2 := List.all_eq_true.mp h m hmem
        simp at h2
      · rw [if_neg h]
        intro hsome
        obtain ⟨h1, h2⟩ := findExtra_some_spec l rest n hsome
        exact ⟨List.mem_cons.mpr (Or.inr h1), h2⟩

theorem find_eq_none_iff : ∀ (ms : BlockMembers) (n : String),
    ms.find n = none ↔ n ∉ ms.names
  | .nil, n => by simp [BlockMembers.find, BlockMembers.names]
  | .cons m lay rest, n => by
      simp only [BlockMembers.find, BlockMembers.names]
      by_cases h : m = n
      · subst h
        simp
      · rw [if_neg h, find_eq_none_iff rest n]
        constructor
        · intro hn hmem
          rcases List.mem_cons.mp hmem with h1 | h1
          · exact h h1.symm
          · exact hn h1
        · intro hn hmem
          exact hn (List.mem_cons.mpr (Or.inr hmem))

theorem names_buildFields : ∀ (fs : HostFields) (o : Nat),
    (buildFields fs o).names = fs.names
  | .nil, o => rfl
  | .cons n off ty rest, o => by
      simp [buildFields, BlockMembers.names, HostFields.names,
        names_buildFields rest o]

theorem memEntry_name_mem : ∀ (fs : HostFields) (n : String) (off : Nat)
    (ty : HostTy), HostFields.MemEntry n off ty fs → n ∈ fs.names
  | .nil, n, off, ty => by simp [HostFields.MemEntry]
  | .cons n2 off2 ty2 rest, n, off, ty => by
      intro h
      rcases h with ⟨h1, _, _⟩ | h2
      · exact h1 ▸ List.mem_cons_self _ _
      · exact List.mem_cons.mpr (Or.inr (memEntry_name_mem rest n off ty h2))

theorem find_buildFields : ∀ (fs : HostFields) (o : Nat) (n : String)
    (off : Nat) (ty : HostTy), nodupNames fs.names = true →
    HostFields.MemEntry n off ty fs →
    (buildFields fs o).find n = some (buildLayoutTy ty (off + o))
  | .nil, o, n, off, ty => by simp [HostFields.MemEntry]
  | .cons n2 off2 ty2 rest, o, n, off, ty => by
      intro hnd hmem
      have hnd2 : (rest.names.all (fun m => m != n2)) = true ∧
          nodupNames rest.names = true := by
        simpa [HostFields.names, nodupNames, Bool.and_eq_true] using hnd
      rcases hmem with ⟨h1, h2, h3⟩ | h4
      · subst h1; subst h2; subst h3
        simp [buildFields, BlockMembers.find]
      · have hne : n2 ≠ n := by
          have hmemn : n ∈ rest.names := memEntry_name_mem rest n off ty h4
          have := List.all_eq_true.mp hnd2.1 n hmemn
          simp at this
          exact fun he => this he.symm
        simp only [buildFields, BlockMembers.find, if_neg hne]
        exact find_buildFields rest o n off ty hnd2.2 h4

theorem matchFields_ok_found : ∀ (fs : HostFields) (ms : BlockMembers),
    matchFields fs ms = .ok () → ∀ f, f ∈ fs.names → ∃ L, ms.find f = some L
  | .nil, ms => by simp [HostFields.names]
  | .cons n off ty rest, ms => by
      intro hok f hf
      cases hfind : ms.find n with
      | none => simp [matchFields, hfind] at hok
      | some L =>
          cases hm : matchesTy ty L off with
          | error e => simp [matchFields, hfind, hm] at hok
          | ok u =>
              cases u
              have hrest : matchFields rest ms = .ok () := by
                simpa [matchFields, hfind, hm] using hok
              rcases List.mem_cons.mp hf with h1 | h1
              · exact ⟨L, h1 ▸ hfind⟩
              · exact matchFields_ok_found rest ms hrest f h1

theorem matchFields_first_missing : ∀ (fs : HostFields) (ms : BlockMembers),
    (∀ n off ty L, HostFields.MemEntry n off ty fs →
        ms.find n = some L → matchesTy ty L off = .ok ()) →
    (∃ f, f ∈ fs.names ∧ ms.find f = none) →
    ∃ f, f ∈ fs.names ∧ ms.find f = none ∧
      matchFields fs ms = .error (.MissingField f)
  | .nil, ms => by simp [HostFields.names]
  | .cons n off ty rest, ms => by
      intro hok hex
      cases hfind : ms.find n with
      | none =>
          exact ⟨n, List.mem_cons_self _ _, hfind, by simp [matchFields, hfind]⟩
      | some L =>
          have hty : matchesTy ty L off = .ok () :=
            hok n off ty L (by simp [HostFields.MemEntry]) hfind
          obtain ⟨f, hf1, hf2⟩ := hex
          have hfr : f ∈ rest.names := by
            rcases List.mem_cons.mp hf1 with h1 | h1
            · subst h1; rw [hfind] at hf2; exact absurd hf2 (by simp)
            · exact h1
          obtain ⟨f2, h1, h2, h3⟩ := matchFields_first_missing rest ms
            (fun n2 off2 ty2 L2 hm hfind2 =>
              hok n2 off2 ty2 L2 (Or.inr hm) hfind2)
            ⟨f, hfr, hf2⟩
          exact ⟨f2, List.mem_cons.mpr (Or.inr h1), h2,
            by simp [matchFields, hfind, hty, h3]⟩

theorem matchFields_append_err : ∀ (pre : HostFields) (n : String) (off : Nat)
    (ty : HostTy) (rest : HostFields) (ms : BlockMembers) (L : BlockLayout)
    (e : LayoutMismatchError),
    (∀ n2 off2 ty2, HostFields.MemEntry n2 off2 ty2 pre →
        ∃ L2, ms.find n2 = some L2 ∧ matchesTy ty2 L2 off2 = .ok ()) →
    ms.find n = some L → matchesTy ty L off = .error e →
    matchFields (HostFields.append pre (.cons n off ty rest)) ms
      = .error (.MemberMismatch n e)
  | .nil, n, off, ty, rest, ms, L, e => by
      intro _ hfind herr
      simp [HostFields.append, matchFields, hfind, herr]
  | .cons p poff pty prest, n, off, ty, rest, ms, L, e => by
      intro hpre hfind herr
      obtain ⟨L2, hf2, hm2⟩ := hpre p poff pty (by simp [HostFields.MemEntry])
      have hrec := matchFields_append_err prest n off ty rest ms L e
        (fun n2 off2 ty2 hm => hpre n2 off2 ty2 (Or.inr hm)) hfind herr
      simp [HostFields.append, matchFields, hf2, hm2, hrec]

mutual

theorem roundtripTy : ∀ (t : HostTy), wfTy t = true → ∀ (o1 o2 : Nat),
    matchesTy t (buildLayoutTy t o1) o2 = .ok ()
  | .leaf tag, _, o1, o2 => by
      simp [buildLayoutTy, matchesTy, matchesLeaf]
  | .agg fields, h, o1, o2 => by
      have hw : nodupNames fields.names = true ∧ wfFields fields = true := by
        simpa [wfTy, Bool.and_eq_true] using h
      have hextra : findExtra fields.names (buildFields fields o1) = none := by
        rw [findExtra_eq_none_iff]
        intro n hn
        rwa [names_buildFields] at hn
      have hfs : matchFields fields (buildFields fields o1) = .ok () :=
        roundtripFields fields (buildFields fields o1) o1 hw.2
          (fun n off ty hmem => find_buildFields fields o1 n off ty hw.1 hmem)
      simp [matchesTy, buildLayoutTy, hextra, hfs]

theorem roundtripFields : ∀ (fs : HostFields) (ms : BlockMembers) (o1 : Nat),
    wfFields fs = true →
    (∀ n off ty, HostFields.MemEntry n off ty fs →
        ms.find n = some (buildLayoutTy ty (off + o1))) →
    matchFields fs ms = .ok ()
  | .nil, ms, o1, _, _ => rfl
  | .cons n off ty rest, ms, o1, hw, hfind => by
      have hwh : wfTy ty = true ∧ wfFields rest = true := by
        simpa [wfFields, Bool.and_eq_true] using hw
      have h1 : ms.find n = some (buildLayoutTy ty (off + o1)) :=
        hfind n off ty (by simp [HostFields.MemEntry])
      have h2 : matchesTy ty (buildLayoutTy ty (off + o1)) off = .ok () :=
        roundtripTy ty hwh.1 (off + o1) off
      have h3 : matchFields rest ms = .ok () :=
        roundtripFields rest ms o1 hwh.2
          (fun n2 off2 ty2 hmem => hfind n2 off2 ty2 (Or.inr hmem))
      simp [matchFields, h1, h2, h3]

end

/-- C3: round trip — every host type with pairwise distinct field names at
every nesting level, matched against the layout it itself builds at any
base offset, succeeds. -/
theorem uniform_block_roundtrip (t : HostTy) (h : wfTy t = true) (o : Nat) :
    matchesTy t (buildLayoutTy t o) o = .ok () :=
  roundtripTy t h o o

/-- Witness for C3 at a concrete nested host type and base offset 7. -/
theorem uniform_block_roundtrip_witness :
    wfTy (.agg (.cons "xf" 0 (.agg (.cons "pos" 0 (.leaf .FloatVec2)
          (.cons "rot" 8 (.leaf .FloatVec3) .nil))) .nil)) = true ∧
      matchesTy (.agg (.cons "xf" 0 (.agg (.cons "pos" 0 (.leaf .FloatVec2)
            (.cons "rot" 8 (.leaf .FloatVec3) .nil))) .nil))
          (buildLayoutTy (.agg (.cons "xf" 0 (.agg (.cons "pos" 0 (.leaf .FloatVec2)
            (.cons "rot" 8 (.leaf .FloatVec3) .nil))) .nil)) 7) 7
        = .ok () :=
  ⟨rfl, uniform_block_roundtrip (.agg (.cons "xf" 0 (.agg (.cons "pos" 0
      (.leaf .FloatVec2) (.cons "rot" 8 (.leaf .FloatVec3) .nil))) .nil)) rfl 7⟩

/-- C4 counterexample: host struct {a: float} against reflected Struct
{b: float leaf}: the host field a has no reflected member named a, yet
matches reports MissingField with the extra reflected name b, not with
the host field name a. -/
theorem missing_field_host_direction_cex :
    (BlockMembers.cons "b" (.BasicType .Float 0) .nil).find "a" = none ∧
      matchesTy (.agg (.cons "a" 0 (.leaf .Float) .nil))
          (.Struct (.cons "b" (.BasicType .Float 0) .nil)) 0
        = .error (.MissingField "b") ∧
      matchesTy (.agg (.cons "a" 0 (.leaf .Float) .nil))
          (.Struct (.cons "b" (.BasicType .Float 0) .nil)) 0
        ≠ .error (.MissingField "a") :=
  ⟨rfl, rfl, by decide⟩

/-- C4 amended: (1) if some reflected member name is not a declared field
name, matches fails with MissingField carrying such an extra reflected
name; (2) if some declared field name has no reflected member of the
same name, matches fails; (3) if moreover every reflected member name
is a declared field name and every declared field that does resolve
matches its member, the error is MissingField carrying such a missing
host field name. -/
theorem missing_field_detection_amended (fields : HostFields)
    (members : BlockMembers) (o : Nat) :
    ((∃ n, n ∈ members.names ∧ n ∉ fields.names) →
        ∃ n, n ∈ members.names ∧ n ∉ fields.names ∧
          matchesTy (.agg fields) (.Struct members) o = .error (.MissingField n)) ∧
      ((∃ f, f ∈ fields.names ∧ members.find f = none) →
        ∃ e, matchesTy (.agg fields) (.Struct members) o = .error e) ∧
      ((∀ n, n ∈ members.names → n ∈ fields.names) →
        (∀ n off ty L, HostFields.MemEntry n off ty fields →
            members.find n = some L → matchesTy ty L off = .ok ()) →
        (∃ f, f ∈ fields.names ∧ members.find f = none) →
        ∃ f, f ∈ fields.names ∧ members.find f = none ∧
          matchesTy (.agg fields) (.Struct members) o = .error (.MissingField f)) := by
  refine ⟨?_, ?_, ?_⟩
  · rintro ⟨n, hn, hnotin⟩
    cases hfe : findExtra fields.names members with
    | none =>
        exact absurd ((findExtra_eq_none_iff _ _).mp hfe n hn) hnotin
    | some m =>
        obtain ⟨hm1, hm2⟩ := findExtra_some_spec _ _ _ hfe
        exact ⟨m, hm1, hm2, by simp [matchesTy, hfe]⟩
  · rintro ⟨f, hf, hfn⟩
    cases hfe : findExtra fields.names members with
    | some m => exact ⟨.MissingField m, by simp [matchesTy, hfe]⟩
    | none =>
        cases hmf : matchFields fields members with
        | error e => exact ⟨e, by simp [matchesTy, hfe, hmf]⟩
        | ok u =>
            cases u
            obtain ⟨L, hL⟩ := matchFields_ok_found fields members hmf f hf
            rw [hL] at hfn
            exact absurd hfn (by simp)
  · intro hsub hok hex
    have hfe : findExtra fields.names members = none :=
      (findExtra_eq_none_iff _ _).mpr hsub
    obtain ⟨f, h1, h2, h3⟩ := matchFields_first_missing fields members hok hex
    exact ⟨f, h1, h2, by simp [matchesTy, hfe, h3]⟩

/-- Witness for C4 amended, applying the extra-member direction at host
struct {a: float} and reflected Struct {b: float leaf}. -/
theorem missing_field_detection_amended_witness :
    ∃ n, n ∈ (BlockMembers.cons "b" (.BasicType .Float 0) .nil).names ∧
      n ∉ (HostFields.cons "a" 0 (.leaf .Float) .nil).names ∧
      matchesTy (.agg (.cons "a" 0 (.leaf .Float) .nil))
          (.Struct (.cons "b" (.BasicType .Float 0) .nil)) 0
        = .error (.MissingField n) :=
  (missing_field_detection_amended _ _ 0).1 ⟨"b", by decide, by decide⟩

/-- C5: when every reflected member name is declared and every declared
field before the failing one resolves and matches, the first field
whose nested match fails produces exactly that nested error wrapped as
MemberMismatch with the field name, returned immediately regardless of
the remaining fields. -/
theorem member_mismatch_short_circuit (pre : HostFields) (n : String)
    (off : Nat) (ty : HostTy) (rest : HostFields) (members : BlockMembers)
    (o : Nat) (L : BlockLayout) (e : LayoutMismatchError)
    (hextra : findExtra (HostFields.append pre (.cons n off ty rest)).names
        members = none)
    (hpre : ∀ n2 off2 ty2, HostFields.MemEntry n2 off2 ty2 pre →
        ∃ L2, members.find n2 = some L2 ∧ matchesTy ty2 L2 off2 = .ok ())
    (hfind : members.find n = some L)
    (herr : matchesTy ty L off = .error e) :
    matchesTy (.agg (HostFields.append pre (.cons n off ty rest)))
        (.Struct members) o
      = .error (.MemberMismatch n e) := by
  have hmf := matchFields_append_err pre n off ty rest members L e hpre hfind herr
  simp [matchesTy, hextra, hmf]

/-- Witness for C5: the documented nested failure path, host
{xf: {pos: vec2, rot: vec3}} with reflected rot tagged as a matrix. -/
theorem member_mismatch_short_circuit_witness :
    matchesTy (.agg (HostFields.append .nil (.cons "xf" 0
          (.agg (.cons "pos" 0 (.leaf .FloatVec2)
            (.cons "rot" 8 (.leaf .FloatVec3) .nil)))
          .nil)))
        (.Struct (.cons "xf" (.Struct (.cons "pos" (.BasicType .FloatVec2 0)
            (.cons "rot" (.BasicType .FloatMat3 8) .nil))) .nil)) 0
      = .error (.MemberMismatch "xf" (.MemberMismatch "rot"
          (.LayoutMismatch (.BasicType .FloatMat3 8) (.BasicType .FloatVec3 8)))) :=
  member_mismatch_short_circuit .nil "xf" 0 _ .nil _ 0 _ _ rfl
    (fun n2 off2 ty2 h => absurd h (by simp [HostFields.MemEntry]))
    rfl rfl
